import Mathlib

/-!
Verification of the LoadBalancer reconciliation engine of the CloudStack
Kubernetes cloud controller (apache/cloudstack-kubernetes-provider).

The Go sources are embedded shallowly: pure helpers become Lean functions,
and the RPC-issuing reconciliation procedures become pure functions from the
observed CloudStack state (rule listings, network data) to the list of
provider calls they issue, together with their return value.  Machine
integers from Go (int, int32) are modelled as Int; Go string maps keyed by
rule name are modelled as association lists looked up with find?; Go maps
used as sets or counters are modelled as duplicate-free lists or multisets.
-/

/-! ### Protocol codec (protocol.go) -/

/-- LoadBalancerProtocol represents a specific network protocol supported by
the CloudStack load balancer (protocol.go). -/
inductive LoadBalancerProtocol where
  | tcp
  | udp
  | tcpProxy
  | invalid
deriving DecidableEq, Repr

/-- CSProtocol returns the full CloudStack protocol name (protocol.go). -/
def LoadBalancerProtocol.CSProtocol : LoadBalancerProtocol → String
  | .tcp => "tcp"
  | .udp => "udp"
  | .tcpProxy => "tcp-proxy"
  | .invalid => ""

/-- IPProtocol returns the standard IP protocol name; the proxy variant
collapses to plain tcp (protocol.go). -/
def LoadBalancerProtocol.IPProtocol : LoadBalancerProtocol → String
  | .tcp => "tcp"
  | .tcpProxy => "tcp"
  | .udp => "udp"
  | .invalid => ""

/-- ProtocolFromLoadBalancer maps a CloudStack load balancer protocol name
back to the protocol variant; only exact lowercase names are accepted
(protocol.go). -/
def ProtocolFromLoadBalancer (protocol : String) : LoadBalancerProtocol :=
  if protocol = "tcp" then .tcp
  else if protocol = "udp" then .udp
  else if protocol = "tcp-proxy" then .tcpProxy
  else .invalid

/-! ### String helpers

Go strings.Split with a one-character separator and strings.ToLower (the
sources only lowercase ASCII host and VM names) are embedded over the
character list of the string, so that they compute by kernel reduction. -/

/-- Split a character list at every occurrence of the separator; splitting
the empty list yields one empty group, like Go strings.Split. -/
def splitChars (sep : Char) : List Char → List (List Char)
  | [] => [[]]
  | c :: rest =>
    let r := splitChars sep rest
    if c = sep then [] :: r
    else
      match r with
      | [] => [[c]]
      | g :: gs => (c :: g) :: gs

/-- Go strings.Split for a one-character separator. -/
def splitOnChar (sep : Char) (s : String) : List String :=
  (splitChars sep s.toList).map fun cs => String.mk cs

/-- Go strings.ToLower, over the character list of the string. -/
def toLowerStr (s : String) : String :=
  String.mk (s.toList.map Char.toLower)

/-- Digit-string accumulator of the base-10 integer parser. -/
def parseDigitsAux : List Char → Nat → Option Nat
  | [], acc => some acc
  | c :: rest, acc =>
    if c.isDigit then parseDigitsAux rest (acc * 10 + (c.toNat - 48)) else none

/-- Go strconv.ParseInt(s, 10, 32): an optional sign followed by at least
one decimal digit, rejected outside the int32 range; embedded over the
character list so that it computes by kernel reduction. -/
def parseInt32 (s : String) : Option Int :=
  match s.toList with
  | [] => none
  | '-' :: rest =>
    match rest with
    | [] => none
    | _ => (parseDigitsAux rest 0).bind
        (fun n => if (n : Int) ≤ 2 ^ 31 then some (-(n : Int)) else none)
  | '+' :: rest =>
    match rest with
    | [] => none
    | _ => (parseDigitsAux rest 0).bind
        (fun n => if (n : Int) ≤ 2 ^ 31 - 1 then some ((n : Int)) else none)
  | cs => (parseDigitsAux cs 0).bind
      (fun n => if (n : Int) ≤ 2 ^ 31 - 1 then some ((n : Int)) else none)

/-! ### CIDR list comparison (compareStringSlice, cloudstack_loadbalancer.go)

The Go function builds a map from string to occurrence count of the first
slice and consumes it with the second slice, bailing out when a key is
absent and deleting keys that reach zero.  A counter map whose keys are
deleted exactly when they reach zero is a multiset, so the map state is
embedded as a Multiset String: key presence is multiset membership,
decrement-and-delete-at-zero is erase, and the final emptiness check of the
map is the test against the empty multiset. -/

/-- The loop over the second slice of compareStringSlice: for each element,
bail out with false when it is not present in the remaining counter state,
otherwise remove one occurrence; at the end, return whether the counter
state is exhausted. -/
def compareLoop : Multiset String → List String → Bool
  | diff, [] => decide (diff = 0)
  | diff, y :: ys => if y ∈ diff then compareLoop (diff.erase y) ys else false

/-- defaultAllowedCIDR is the network range allowed on the firewall by
default when no explicit CIDR list is given (cloudstack_loadbalancer.go). -/
def defaultAllowedCIDR : String := "0.0.0.0/0"

/-- compareStringSlice compares two unsorted slices of strings without
sorting them first (cloudstack_loadbalancer.go): a length guard followed by
the counter loop seeded with the occurrence counts of the first slice. -/
def compareStringSlice (x y : List String) : Bool :=
  if x.length ≠ y.length then false
  else compareLoop (Multiset.ofList x) y

/-! ### Membership differ (symmetricDifference, cloudstack_loadbalancer.go)

The Go function builds a set map from the desired host IDs, walks the
observed load balancer instances removing already-desired members from the
map and collecting the rest into the remove slice, and finally returns the
remaining map keys as the assign slice.  The set map is embedded as a
duplicate-free list built by first-occurrence insertion; the observed
instances contribute their Id field. -/

/-- The map built from the desired host IDs: a set, so duplicate IDs
collapse; embedded as a list keeping the first occurrence of each ID. -/
def symNewMap (hostIDs : List String) : List String :=
  hostIDs.foldl (fun acc h => if h ∈ acc then acc else acc ++ [h]) []

/-- The loop of symmetricDifference over the observed instance IDs: an ID
that is still wanted is removed from the map, any other observed ID is
collected for removal. -/
def symLoop : List String → List String → List String → List String × List String
  | newIDs, removeAcc, [] => (newIDs, removeAcc)
  | newIDs, removeAcc, instId :: rest =>
    if instId ∈ newIDs then symLoop (newIDs.erase instId) removeAcc rest
    else symLoop newIDs (removeAcc ++ [instId]) rest

/-- symmetricDifference returns the pair (assign, remove) between the
desired host IDs and the IDs of the observed load balancer instances
(cloudstack_loadbalancer.go). -/
def symmetricDifference (hostIDs lbInstanceIDs : List String) : List String × List String :=
  symLoop (symNewMap hostIDs) [] lbInstanceIDs

/-! ### LB rule data model and per-port decision (cloudstack_loadbalancer.go)

LoadBalancerRule mirrors the fields of the CloudStack client object that the
engine reads or writes; ports come back from the API as strings.  The
per-service in-memory rule map keyed by rule name is embedded as a list
looked up by the Name field (rule names are unique per service). -/

structure LoadBalancerRule where
  Id : String
  Name : String
  Algorithm : String
  Cidrlist : String
  Networkid : String
  Privateport : String
  Publicport : String
  Publicip : String
  Publicipid : String
  Protocol : String
deriving DecidableEq, Repr

/-- A Kubernetes Service port: Port is the public port, NodePort the private
(backend) port; both int32 in Go, modelled as Int. -/
structure ServicePort where
  Port : Int
  NodePort : Int
deriving DecidableEq, Repr

/-- The observed per-service load balancer state used by the decision: the
desired algorithm, the public IP adopted for the service, and the observed
rules keyed by name. -/
structure LBState where
  algorithm : String
  ipAddr : String
  rules : List LoadBalancerRule
deriving Repr

/-- Outcome of checkLoadBalancerRule: the rule map has no rule of that name,
or the rule is kept (with a flag telling whether algorithm or protocol must
be updated in place), or the rule was deleted because a structurally
immutable field changed. -/
inductive CheckResult where
  | notFound
  | keep (rule : LoadBalancerRule) (needsUpdate : Bool)
  | deleted (rule : LoadBalancerRule)
deriving DecidableEq, Repr

/-- checkLoadBalancerRule checks if the rule already exists and if it does,
whether it can be updated in place; a rule whose public IP, private port or
public port changed is deleted so it can be created again
(cloudstack_loadbalancer.go). -/
def checkLoadBalancerRule (lb : LBState) (lbRuleName : String) (port : ServicePort)
    (protocol : LoadBalancerProtocol) : CheckResult :=
  match lb.rules.find? (fun r => r.Name = lbRuleName) with
  | none => .notFound
  | some lbRule =>
    if lbRule.Publicip = lb.ipAddr ∧ lbRule.Privateport = toString port.NodePort
        ∧ lbRule.Publicport = toString port.Port then
      .keep lbRule (decide (lbRule.Algorithm ≠ lb.algorithm)
        || decide (lbRule.Protocol ≠ protocol.CSProtocol))
    else
      .deleted lbRule

/-- A load balancer mutation issued while reconciling one Service port. -/
inductive LBAction where
  | deleteRule (id : String)
  | updateRule (name : String) (algorithm : String) (protocol : String)
  | createRule (name : String) (port : ServicePort) (algorithm : String) (protocol : String)
  | assignHosts (name : String) (hostIDs : List String)
deriving DecidableEq, Repr

/-- ensurePortActions is the per-port body of EnsureLoadBalancer
(cloudstack_loadbalancer.go): after checkLoadBalancerRule, an up-to-date
rule is left alone, a kept rule with changed algorithm or protocol is
updated in place, and a missing or just-deleted rule is created and gets
the hosts assigned.  The delete of a rule with changed immutable fields is
issued inside checkLoadBalancerRule, before the create. -/
def ensurePortActions (lb : LBState) (hostIDs : List String) (lbRuleName : String)
    (port : ServicePort) (protocol : LoadBalancerProtocol) : List LBAction :=
  match checkLoadBalancerRule lb lbRuleName port protocol with
  | .keep _ true => [.updateRule lbRuleName lb.algorithm protocol.CSProtocol]
  | .keep _ false => []
  | .notFound =>
    [.createRule lbRuleName port lb.algorithm protocol.CSProtocol,
     .assignHosts lbRuleName hostIDs]
  | .deleted r =>
    [.deleteRule r.Id,
     .createRule lbRuleName port lb.algorithm protocol.CSProtocol,
     .assignHosts lbRuleName hostIDs]

/-- The observed rule used in the C1 witness: same public IP and ports as
the desired port, but an algorithm that drifted from roundrobin to source. -/
def c1Rule : LoadBalancerRule :=
  { Id := "rule-id", Name := "svc-tcp-80", Algorithm := "source",
    Cidrlist := "0.0.0.0/0", Networkid := "net-1", Privateport := "30000",
    Publicport := "80", Publicip := "1.1.1.1", Publicipid := "ip-1",
    Protocol := "tcp" }

/-- The observed rule of the C2 evaluation: everything matches the desired
state except the CIDR list. -/
def c2Rule : LoadBalancerRule :=
  { Id := "rule-id", Name := "rule", Algorithm := "roundrobin",
    Cidrlist := "10.0.0.0/8", Networkid := "net-1", Privateport := "30000",
    Publicport := "80", Publicip := "1.1.1.1", Publicipid := "ip-1",
    Protocol := "tcp" }

/-! ### Firewall perimeter reconciler (updateFirewallRule, cloudstack_loadbalancer.go)

updateFirewallRule lists the firewall rules of the public IP, filters them
to the IP protocol and single-port range of the load balancer rule, keeps
one whose CIDR list equals the desired list, deletes all other filtered
rules (logging but not aborting on individual failures, the err variable
keeping only the outcome of the last delete call), and creates a new rule
only when no equal rule was found.  The embedding takes the listed rules as
input and returns the issued calls, the bool result and the returned error;
delete failures are injected through an oracle keyed by rule ID. -/

structure FirewallRule where
  Id : String
  Ipaddress : String
  Protocol : String
  Startport : Int
  Endport : Int
  Cidrlist : String
deriving DecidableEq, Repr

/-- A firewall API call issued by the reconciler. -/
inductive FwEvent where
  | deleteRule (id : String)
  | createRule (cidrList : List String) (startport endport : Int) (protocol : String)
deriving DecidableEq, Repr

/-- The filter predicate of updateFirewallRule: same IP protocol and a
single-port range equal to the public port. -/
def fwRuleMatchesPort (protocol : LoadBalancerProtocol) (publicPort : Int)
    (r : FirewallRule) : Bool :=
  decide (r.Protocol = protocol.IPProtocol) && decide (r.Startport = publicPort)
    && decide (r.Endport = publicPort)

/-- The normalization at the top of updateFirewallRule: an empty allowed
list opens all of IPv4. -/
def normalizeAllowed (allowedIPs : List String) : List String :=
  if allowedIPs.isEmpty then [defaultAllowedCIDR] else allowedIPs

/-- The rules with matching protocol and port among the listed rules. -/
def fwFiltered (fwRules : List FirewallRule) (publicPort : Int)
    (protocol : LoadBalancerProtocol) : List FirewallRule :=
  fwRules.filter (fwRuleMatchesPort protocol publicPort)

/-- The rule kept by updateFirewallRule: the first filtered rule whose
comma-split CIDR list equals the desired list under compareStringSlice. -/
def fwMatch (fwRules : List FirewallRule) (publicPort : Int)
    (protocol : LoadBalancerProtocol) (allowed : List String) : Option FirewallRule :=
  (fwFiltered fwRules publicPort protocol).find?
    (fun r => compareStringSlice (splitOnChar ',' r.Cidrlist) allowed)

/-- The filtered rules that updateFirewallRule deletes: everything except
the kept rule. -/
def fwToDelete (fwRules : List FirewallRule) (publicPort : Int)
    (protocol : LoadBalancerProtocol) (allowed : List String) : List FirewallRule :=
  match fwMatch fwRules publicPort protocol allowed with
  | some m => (fwFiltered fwRules publicPort protocol).erase m
  | none => fwFiltered fwRules publicPort protocol

/-- The err variable after the delete loop: it is overwritten by every
delete call, so it holds the outcome of the last one only. -/
def fwDeleteErr (toDelete : List FirewallRule) (deleteFails : String → Bool) : Option String :=
  toDelete.foldl
    (fun _ r => if deleteFails r.Id then some ("error deleting old firewall rule " ++ r.Id)
                else none) none

/-- The sequence of firewall calls issued by updateFirewallRule: the deletes
of the conflicting rules first, then the create when no rule was kept. -/
def fwEvents (fwRules : List FirewallRule) (publicPort : Int)
    (protocol : LoadBalancerProtocol) (allowed : List String) : List FwEvent :=
  let deleteEvents := (fwToDelete fwRules publicPort protocol allowed).map
    (fun r => FwEvent.deleteRule r.Id)
  match fwMatch fwRules publicPort protocol allowed with
  | some _ => deleteEvents
  | none =>
    deleteEvents ++ [FwEvent.createRule allowed publicPort publicPort protocol.IPProtocol]

/-- updateFirewallRule (cloudstack_loadbalancer.go): returns the issued
calls, the bool result and the error value returned to EnsureLoadBalancer.
When a rule was kept, the error of the delete loop is returned as is; when
a create was issued, its outcome replaces the err variable, so a failed
create aborts with an error and a successful one returns nil. -/
def updateFirewallRule (fwRules : List FirewallRule) (publicPort : Int)
    (protocol : LoadBalancerProtocol) (allowedIPs : List String)
    (deleteFails : String → Bool) (createFails : Bool) :
    List FwEvent × Bool × Option String :=
  let allowed := normalizeAllowed allowedIPs
  match fwMatch fwRules publicPort protocol allowed with
  | some _ =>
    (fwEvents fwRules publicPort protocol allowed, true,
     fwDeleteErr (fwToDelete fwRules publicPort protocol allowed) deleteFails)
  | none =>
    if createFails then
      (fwEvents fwRules publicPort protocol allowed, false,
       some "error creating new firewall rule")
    else
      (fwEvents fwRules publicPort protocol allowed, true, none)

/-- The listed rule of the C3 witness: it opens all of IPv4 on tcp port 80
while the desired list is 10.0.0.0/8 only. -/
def c3OldRule : FirewallRule :=
  { Id := "fw-old", Ipaddress := "1.1.1.1", Protocol := "tcp",
    Startport := 80, Endport := 80, Cidrlist := "0.0.0.0/0" }

/-- Kept rule of the C8 counterexample: its CIDR list equals the desired
list, so no create will be issued. -/
def c8MatchRule : FirewallRule :=
  { Id := "fw-1", Ipaddress := "1.1.1.1", Protocol := "tcp",
    Startport := 80, Endport := 80, Cidrlist := "10.0.0.0/8" }

/-- First conflicting rule of the C8 counterexample; its delete succeeds. -/
def c8OkRule : FirewallRule :=
  { Id := "fw-2", Ipaddress := "1.1.1.1", Protocol := "tcp",
    Startport := 80, Endport := 80, Cidrlist := "0.0.0.0/0" }

/-- Second conflicting rule of the C8 counterexample; its delete fails. -/
def c8BadRule : FirewallRule :=
  { Id := "fw-3", Ipaddress := "1.1.1.1", Protocol := "tcp",
    Startport := 80, Endport := 80, Cidrlist := "192.168.0.0/16" }

/-! ### Network ACL perimeter (updateNetworkACL / deleteNetworkACLRule,
cloudstack_loadbalancer.go)

The embedding carries the ACL entries listed on the network as input state.
updateNetworkACL in the source resolves the network and immediately issues
one CreateNetworkACL call with action Allow, traffic type Ingress and CIDR
list 0.0.0.0/0; it never lists the existing entries.  deleteNetworkACLRule
lists the entries, filters them by IP protocol and string-compared single
port, and then unconditionally takes the head of the filtered slice, an
out-of-range index access when nothing matched, modelled as none. -/

/-- A CloudStack NetworkACL entry; CloudStack reports ACL ports as
strings. -/
structure NetworkACLEntry where
  Id : String
  Protocol : String
  Startport : String
  Endport : String
deriving DecidableEq, Repr

/-- The network object consumed by the ACL reconciler: its ID, the ID of
its ACL list, and the entries currently on that list (world state; the
source function updateNetworkACL reads only Id and Aclid). -/
structure AclNetwork where
  Id : String
  Aclid : String
  acls : List NetworkACLEntry
deriving DecidableEq, Repr

/-- A network ACL API call issued by the reconciler. -/
inductive AclEvent where
  | createEntry (protocol : String) (aclid : String) (action : String)
      (cidrList : List String) (startport endport : Int) (networkid : String)
      (traffictype : String)
deriving DecidableEq, Repr

/-- updateNetworkACL (cloudstack_loadbalancer.go): resolves the network by
ID and creates an ACL entry with action Allow, traffic type Ingress and
CIDR list 0.0.0.0/0 on its ACL list; the existing entries of the list are
never consulted. -/
def updateNetworkACL (network : AclNetwork) (publicPort : Int)
    (protocol : LoadBalancerProtocol) : List AclEvent × Bool :=
  ([AclEvent.createEntry protocol.CSProtocol network.Aclid "Allow" ["0.0.0.0/0"]
      publicPort publicPort network.Id "Ingress"], true)

/-- The matching predicate of C4 and of deleteNetworkACLRule: same IP
protocol and startPort = endPort = publicPort, ports compared as strings. -/
def aclMatchesPort (protocol : LoadBalancerProtocol) (publicPort : Int)
    (r : NetworkACLEntry) : Bool :=
  decide (r.Protocol = protocol.IPProtocol) && decide (r.Startport = toString publicPort)
    && decide (r.Endport = toString publicPort)

/-- The network of the C4 evaluation: its ACL list already holds an entry
matching tcp with startPort = endPort = 80. -/
def c4Network : AclNetwork :=
  { Id := "net-123", Aclid := "acl-456",
    acls := [{ Id := "acl-rule-123", Protocol := "tcp", Startport := "80", Endport := "80" }] }

/-- deleteNetworkACLRule (cloudstack_loadbalancer.go): lists the network
ACL entries, filters them by protocol and string-compared single port, and
deletes the first filtered entry.  The head access filtered[0] is performed
without an emptiness check; the out-of-range panic of the empty case is
modelled as none, so none means the call does not terminate normally. -/
def deleteNetworkACLRule (acls : List NetworkACLEntry) (publicPort : Int)
    (protocol : LoadBalancerProtocol) : Option (String × Bool) :=
  let filtered := acls.filter (aclMatchesPort protocol publicPort)
  match filtered with
  | [] => none
  | r :: _ => some (r.Id, true)

/-! ### Cleanup of obsolete rules in EnsureLoadBalancer
(cloudstack_loadbalancer.go, end of EnsureLoadBalancer)

For every rule left in the observed-rule map after the port loop, Ensure
parses the rule protocol and public port (failures abort with an error) and
then always issues deleteFirewallRule, deleteNetworkACLRule and the load
balancer rule delete, in this order, with no check of which perimeter kind
the network actually supports. -/

/-- One cleanup call of the obsolete-rule loop of EnsureLoadBalancer. -/
inductive CleanupCall where
  | deleteFirewall (publicIpId : String) (port : Int) (protocol : LoadBalancerProtocol)
  | deleteACL (port : Int) (protocol : LoadBalancerProtocol) (networkID : String)
  | deleteLB (id : String)
deriving DecidableEq, Repr

/-- The cleanup loop of EnsureLoadBalancer over the obsolete rules: for
each rule, parse protocol and port (an unparsable value aborts the whole
reconciliation with an error), then delete the firewall rules, the network
ACL rule and the load balancer rule. -/
def ensureCleanupCalls (networkID : String) : List LoadBalancerRule → Except String (List CleanupCall)
  | [] => Except.ok []
  | r :: rest =>
    let p := ProtocolFromLoadBalancer r.Protocol
    if p = LoadBalancerProtocol.invalid then
      Except.error ("Error parsing protocol " ++ r.Protocol)
    else
      match parseInt32 r.Publicport with
      | none => Except.error ("Error parsing port " ++ r.Publicport)
      | some port =>
        match ensureCleanupCalls networkID rest with
        | Except.error e => Except.error e
        | Except.ok calls =>
          Except.ok ([CleanupCall.deleteFirewall r.Publicipid port p,
                      CleanupCall.deleteACL port p networkID,
                      CleanupCall.deleteLB r.Id] ++ calls)

/-- The obsolete rule of the C5 witness, on a network that only has
firewall rules: its tcp port 80 parses, so the cleanup loop still issues a
network ACL delete for it, and the ACL listing holds no matching entry. -/
def c5Rule : LoadBalancerRule :=
  { Id := "rule-id", Name := "svc-tcp-80", Algorithm := "roundrobin",
    Cidrlist := "0.0.0.0/0", Networkid := "net-1", Privateport := "30000",
    Publicport := "80", Publicip := "1.1.1.1", Publicipid := "ip-1",
    Protocol := "tcp" }

/-- The only listed ACL entry of the C5 witness: a udp entry that does not
match tcp port 80. -/
def c5AclEntry : NetworkACLEntry :=
  { Id := "acl-1", Protocol := "udp", Startport := "53", Endport := "53" }

/-! ### EnsureLoadBalancerDeleted (cloudstack_loadbalancer.go)

For each observed rule, the deletion flow parses the protocol (an invalid
protocol is only logged and the rule is skipped entirely), parses the port
(a parse failure is logged and the perimeter delete is skipped), deletes
the firewall rule when the network has no VPC and the network ACL rule
otherwise, and then deletes the load balancer rule; afterwards, the public
IP is disassociated exactly when an IP is attached and it differs from the
LoadBalancerIP requested on the Service.  The embedding assumes the
CloudStack lookups and deletes succeed and returns the issued calls. -/

/-- A call issued by EnsureLoadBalancerDeleted. -/
inductive DeleteAction where
  | deleteFirewall (publicIpId : String) (port : Int) (protocol : LoadBalancerProtocol)
  | deleteACL (port : Int) (protocol : LoadBalancerProtocol) (networkID : String)
  | deleteLBRule (id : String)
  | releaseIP (ipAddrID : String)
deriving DecidableEq, Repr

/-- The per-rule body of the deletion loop. -/
def ensureDeletedRuleActions (vpcid networkID : String) (r : LoadBalancerRule) :
    List DeleteAction :=
  let p := ProtocolFromLoadBalancer r.Protocol
  if p = LoadBalancerProtocol.invalid then []
  else
    (match parseInt32 r.Publicport with
     | none => []
     | some port =>
       if vpcid = "" then [DeleteAction.deleteFirewall r.Publicipid port p]
       else [DeleteAction.deleteACL port p networkID])
    ++ [DeleteAction.deleteLBRule r.Id]

/-- EnsureLoadBalancerDeleted (cloudstack_loadbalancer.go): the calls of
the per-rule deletion loop, followed by the IP disassociation when the
attached address is non-empty and differs from the requested
LoadBalancerIP. -/
def ensureLoadBalancerDeletedActions (vpcid networkID ipAddr ipAddrID requestedIP : String)
    (rules : List LoadBalancerRule) : List DeleteAction :=
  (rules.map (ensureDeletedRuleActions vpcid networkID)).flatten
    ++ (if ipAddr ≠ "" ∧ ipAddr ≠ requestedIP then [DeleteAction.releaseIP ipAddrID] else [])

/-! ### Node resolver (verifyHosts, cloudstack_loadbalancer.go)

verifyHosts lowercases each node name and strips the domain part of an
FQDN, collects these host names into a set, and walks the listed virtual
machines: a VM whose lowercased name is in the set is matched; a matched VM
whose first-NIC network ID differs from the non-empty running network ID
makes the resolution fail; otherwise the running network ID is overwritten
and the VM ID collected.  After the loop, an empty ID list or an empty
network ID fails.  A VM carries the network ID of its first NIC. -/

structure VirtualMachine where
  Id : String
  Name : String
  NicNetworkid : String
deriving DecidableEq, Repr

/-- The per-node host name: lowercased, with everything from the first dot
on removed (strings.Split(strings.ToLower(name), ".")[0]). -/
def stripDomain (name : String) : String :=
  (splitOnChar '.' (toLowerStr name)).headD ""

/-- Whether a VM name matches one of the node host names (the Go host name
set lookup). -/
def vmMatches (nodes : List String) (vm : VirtualMachine) : Bool :=
  (nodes.map stripDomain).contains (toLowerStr vm.Name)

/-- The matched VMs, in listing order. -/
def matchedVMs (nodes : List String) (vms : List VirtualMachine) : List VirtualMachine :=
  vms.filter (vmMatches nodes)

/-- The error of the multiple-network check of verifyHosts. -/
def errDifferentNetworks : String := "found hosts that belong to different networks"

/-- The error of the final emptiness check of verifyHosts. -/
def errNoMatch : String := "none of the hosts matched the list of VMs retrieved from CS API"

/-- The VM loop of verifyHosts with its running accumulator pair. -/
def verifyHostsLoop (nodes : List String) :
    List VirtualMachine → List String → String → Except String (List String × String)
  | [], hostIDs, networkID =>
    if hostIDs.isEmpty ∨ networkID = "" then Except.error errNoMatch
    else Except.ok (hostIDs, networkID)
  | vm :: rest, hostIDs, networkID =>
    if vmMatches nodes vm then
      if networkID ≠ "" ∧ networkID ≠ vm.NicNetworkid then Except.error errDifferentNetworks
      else verifyHostsLoop nodes rest (hostIDs ++ [vm.Id]) vm.NicNetworkid
    else verifyHostsLoop nodes rest hostIDs networkID

/-- verifyHosts (cloudstack_loadbalancer.go) over the node names and the
listed VMs. -/
def verifyHosts (nodes : List String) (vms : List VirtualMachine) :
    Except String (List String × String) :=
  verifyHostsLoop nodes vms [] ""

/-- Whether the resolution failed. -/
def isErr : Except String (List String × String) → Bool
  | Except.error _ => true
  | Except.ok _ => false

/-- The consecutive network-ID check that the loop applies along a run of
matched VMs, starting from the running network ID. -/
def nicChainOk : String → List VirtualMachine → Bool
  | _, [] => true
  | nid, vm :: rest =>
    if nid ≠ "" ∧ nid ≠ vm.NicNetworkid then false else nicChainOk vm.NicNetworkid rest

/-- The running network ID after processing a run of matched VMs. -/
def lastNic (nid : String) (ms : List VirtualMachine) : String :=
  (ms.map (fun vm => vm.NicNetworkid)).getLastD nid

/-- The VM of the C10 counterexample: it matches the only node, but its
first NIC carries an empty network ID. -/
def c10Vm : VirtualMachine :=
  { Id := "vm-1", Name := "node1", NicNetworkid := "" }

theorem compareLoop_eq_true_iff (ys : List String) :
    ∀ diff : Multiset String, compareLoop diff ys = true ↔ diff = Multiset.ofList ys := by
  induction ys with
  | nil =>
    intro diff
    rw [compareLoop, decide_eq_true_eq]
    exact ⟨fun h => h, fun h => h⟩
  | cons y ys ih =>
    intro diff
    rw [compareLoop]
    by_cases hy : y ∈ diff
    · rw [if_pos hy, ih]
      constructor
      · intro h
        have hcons := Multiset.cons_erase hy
        rw [← hcons, h]
        rfl
      · intro h
        have : Multiset.ofList (y :: ys) = y ::ₘ Multiset.ofList ys := rfl
        rw [h, this, Multiset.erase_cons_head]
    · rw [if_neg hy]
      constructor
      · intro h
        exact absurd h (by simp)
      · intro h
        exfalso
        apply hy
        rw [h]
        have : Multiset.ofList (y :: ys) = y ::ₘ Multiset.ofList ys := rfl
        rw [this]
        exact Multiset.mem_cons_self y _

theorem compareStringSlice_eq_true_iff (x y : List String) :
    compareStringSlice x y = true ↔ Multiset.ofList x = Multiset.ofList y := by
  rw [compareStringSlice]
  by_cases hlen : x.length ≠ y.length
  · rw [if_pos hlen]
    constructor
    · intro h
      exact absurd h (by simp)
    · intro h
      exfalso
      apply hlen
      have := congrArg Multiset.card h
      simpa [Multiset.coe_card] using this
  · rw [if_neg hlen]
    exact compareLoop_eq_true_iff y (Multiset.ofList x)

/-- C7: compareStringSlice returns true if and only if the two string lists
are equal as multisets, i.e. every unique string occurs the same number of
times in both; in particular the comparison is order-insensitive,
multiplicity-sensitive, and symmetric. -/
theorem compareStringSlice_multiset_spec (x y : List String) :
    (compareStringSlice x y = true ↔ Multiset.ofList x = Multiset.ofList y)
    ∧ (compareStringSlice x y = true ↔ ∀ s : String, x.count s = y.count s)
    ∧ compareStringSlice x y = compareStringSlice y x := by
  refine ⟨compareStringSlice_eq_true_iff x y, ?_, ?_⟩
  · rw [compareStringSlice_eq_true_iff]
    show (x : Multiset String) = (y : Multiset String) ↔ _
    rw [Multiset.coe_eq_coe, List.perm_iff_count]
  · have h1 := compareStringSlice_eq_true_iff x y
    have h2 := compareStringSlice_eq_true_iff y x
    cases hxy : compareStringSlice x y <;> cases hyx : compareStringSlice y x
    · rfl
    · exact absurd (h1.mpr (h2.mp hyx).symm) (by simp [hxy])
    · exact absurd (h2.mpr (h1.mp hxy).symm) (by simp [hyx])
    · rfl

theorem mem_symNewMap_aux (l : List String) :
    ∀ acc s, (s ∈ l.foldl (fun acc h => if h ∈ acc then acc else acc ++ [h]) acc)
      ↔ s ∈ acc ∨ s ∈ l := by
  induction l with
  | nil => intro acc s; simp
  | cons h t ih =>
    intro acc s
    rw [List.foldl_cons, ih]
    by_cases hmem : h ∈ acc
    · rw [if_pos hmem]
      constructor
      · rintro (hs | hs)
        · exact Or.inl hs
        · exact Or.inr (List.mem_cons_of_mem h hs)
      · rintro (hs | hs)
        · exact Or.inl hs
        · rcases List.mem_cons.mp hs with hshd | hstl
          · exact Or.inl (hshd ▸ hmem)
          · exact Or.inr hstl
    · rw [if_neg hmem]
      simp only [List.mem_append, List.mem_singleton, List.mem_cons]
      tauto

theorem nodup_symNewMap_aux (l : List String) :
    ∀ acc : List String, acc.Nodup →
      (l.foldl (fun acc h => if h ∈ acc then acc else acc ++ [h]) acc).Nodup := by
  induction l with
  | nil => intro acc h; exact h
  | cons h t ih =>
    intro acc hacc
    rw [List.foldl_cons]
    by_cases hmem : h ∈ acc
    · rw [if_pos hmem]; exact ih acc hacc
    · rw [if_neg hmem]
      apply ih
      simp [List.nodup_append, hacc, hmem]

theorem mem_symNewMap (hostIDs : List String) (s : String) :
    s ∈ symNewMap hostIDs ↔ s ∈ hostIDs := by
  rw [symNewMap, mem_symNewMap_aux]
  simp

theorem nodup_symNewMap (hostIDs : List String) : (symNewMap hostIDs).Nodup :=
  nodup_symNewMap_aux hostIDs [] List.nodup_nil

theorem symLoop_spec (obs : List String) :
    ∀ (newIDs removeAcc : List String), newIDs.Nodup → obs.Nodup →
      (∀ s, s ∈ (symLoop newIDs removeAcc obs).1 ↔ s ∈ newIDs ∧ s ∉ obs)
      ∧ (∀ s, s ∈ (symLoop newIDs removeAcc obs).2 ↔ s ∈ removeAcc ∨ (s ∈ obs ∧ s ∉ newIDs)) := by
  induction obs with
  | nil =>
    intro newIDs removeAcc _ _
    constructor
    · intro s; simp [symLoop]
    · intro s; simp [symLoop]
  | cons i rest ih =>
    intro newIDs removeAcc hnd hobs
    have hobs1 : i ∉ rest := (List.nodup_cons.mp hobs).1
    have hobs2 : rest.Nodup := (List.nodup_cons.mp hobs).2
    by_cases hi : i ∈ newIDs
    · have hrec := ih (newIDs.erase i) removeAcc (hnd.erase i) hobs2
      constructor
      · intro s
        rw [symLoop, if_pos hi]
        rw [hrec.1 s]
        by_cases hsi : s = i
        · subst hsi
          simp [List.Nodup.not_mem_erase hnd]
        · rw [List.mem_erase_of_ne hsi]
          simp [hsi]
      · intro s
        rw [symLoop, if_pos hi]
        rw [hrec.2 s]
        by_cases hsi : s = i
        · subst hsi
          simp [hi, hobs1]
        · rw [List.mem_erase_of_ne hsi]
          simp [hsi]
    · have hrec := ih newIDs (removeAcc ++ [i]) hnd hobs2
      constructor
      · intro s
        rw [symLoop, if_neg hi]
        rw [hrec.1 s]
        by_cases hsi : s = i
        · subst hsi
          simp [hi]
        · simp [hsi]
      · intro s
        rw [symLoop, if_neg hi]
        rw [hrec.2 s]
        by_cases hsi : s = i
        · subst hsi
          simp [hi]
        · simp [hsi]

/-- C6: for a desired host-ID list with distinct entries and an observed
instance-ID list with distinct entries, symmetricDifference returns a pair
(assign, remove) whose first component contains exactly the desired IDs not
observed and whose second contains exactly the observed IDs not desired
(equality as sets; the internal order is unconstrained and either list may
be empty). -/
theorem symmetricDifference_sets (hostIDs obs : List String)
    (hD : hostIDs.Nodup) (hO : obs.Nodup) :
    (∀ s, s ∈ (symmetricDifference hostIDs obs).1 ↔ s ∈ hostIDs ∧ s ∉ obs)
    ∧ (∀ s, s ∈ (symmetricDifference hostIDs obs).2 ↔ s ∈ obs ∧ s ∉ hostIDs) := by
  have h := symLoop_spec obs (symNewMap hostIDs) [] (nodup_symNewMap hostIDs) hO
  constructor
  · intro s
    rw [symmetricDifference, h.1 s, mem_symNewMap]
  · intro s
    rw [symmetricDifference, h.2 s]
    simp [mem_symNewMap]

/-- C6 witness: scenario E6 of the spec at concrete inputs, observed members
vm1, vm2, vm3 and desired members vm2, vm3, vm4: vm4 is assigned and vm1 is
removed, while vm2 stays untouched. -/
theorem symmetricDifference_sets_witness :
    "vm4" ∈ (symmetricDifference ["vm2", "vm3", "vm4"] ["vm1", "vm2", "vm3"]).1
    ∧ "vm1" ∈ (symmetricDifference ["vm2", "vm3", "vm4"] ["vm1", "vm2", "vm3"]).2
    ∧ "vm2" ∉ (symmetricDifference ["vm2", "vm3", "vm4"] ["vm1", "vm2", "vm3"]).2 :=
  ⟨((symmetricDifference_sets _ _ (by decide) (by decide)).1 "vm4").mpr (by decide),
   ((symmetricDifference_sets _ _ (by decide) (by decide)).2 "vm1").mpr (by decide),
   fun h => by
    have := ((symmetricDifference_sets ["vm2", "vm3", "vm4"] ["vm1", "vm2", "vm3"]
      (by decide) (by decide)).2 "vm2").mp h
    exact absurd this (by decide)⟩

/-- C1: for a Service port whose canonical rule name matches an observed
rule, the per-port reconciliation deletes the rule and recreates it when
any of public IP, public port, or private port differs from the desired
values; when those three match but algorithm or protocol differs it updates
the rule in place without issuing a delete; and when all of these fields
match it issues neither a delete, an update, nor a create. -/
theorem ensurePortActions_decision (lb : LBState) (hostIDs : List String)
    (lbRuleName : String) (port : ServicePort) (protocol : LoadBalancerProtocol)
    (r : LoadBalancerRule)
    (hfind : lb.rules.find? (fun q => q.Name = lbRuleName) = some r) :
    ((r.Publicip ≠ lb.ipAddr ∨ r.Privateport ≠ toString port.NodePort
        ∨ r.Publicport ≠ toString port.Port) →
      ensurePortActions lb hostIDs lbRuleName port protocol =
        [.deleteRule r.Id,
         .createRule lbRuleName port lb.algorithm protocol.CSProtocol,
         .assignHosts lbRuleName hostIDs])
    ∧ ((r.Publicip = lb.ipAddr ∧ r.Privateport = toString port.NodePort
        ∧ r.Publicport = toString port.Port
        ∧ (r.Algorithm ≠ lb.algorithm ∨ r.Protocol ≠ protocol.CSProtocol)) →
      ensurePortActions lb hostIDs lbRuleName port protocol =
        [.updateRule lbRuleName lb.algorithm protocol.CSProtocol])
    ∧ ((r.Publicip = lb.ipAddr ∧ r.Privateport = toString port.NodePort
        ∧ r.Publicport = toString port.Port
        ∧ r.Algorithm = lb.algorithm ∧ r.Protocol = protocol.CSProtocol) →
      ensurePortActions lb hostIDs lbRuleName port protocol = []) := by
  refine ⟨?_, ?_, ?_⟩
  · intro hdiff
    have hcond : ¬(r.Publicip = lb.ipAddr ∧ r.Privateport = toString port.NodePort
        ∧ r.Publicport = toString port.Port) := by
      rintro ⟨h1, h2, h3⟩
      rcases hdiff with h | h | h <;> exact h (by assumption)
    rw [ensurePortActions, checkLoadBalancerRule, hfind]
    simp only [if_neg hcond]
  · rintro ⟨h1, h2, h3, hup⟩
    have hcond : r.Publicip = lb.ipAddr ∧ r.Privateport = toString port.NodePort
        ∧ r.Publicport = toString port.Port := ⟨h1, h2, h3⟩
    rw [ensurePortActions, checkLoadBalancerRule, hfind]
    simp only [if_pos hcond]
    have : (decide (r.Algorithm ≠ lb.algorithm) || decide (r.Protocol ≠ protocol.CSProtocol))
        = true := by
      rcases hup with h | h <;> simp [h]
    rw [this]
  · rintro ⟨h1, h2, h3, h4, h5⟩
    have hcond : r.Publicip = lb.ipAddr ∧ r.Privateport = toString port.NodePort
        ∧ r.Publicport = toString port.Port := ⟨h1, h2, h3⟩
    rw [ensurePortActions, checkLoadBalancerRule, hfind]
    simp only [if_pos hcond]
    have : (decide (r.Algorithm ≠ lb.algorithm) || decide (r.Protocol ≠ protocol.CSProtocol))
        = false := by simp [h4, h5]
    rw [this]

/-- C1 witness: at a concrete state whose observed rule matches on the three
immutable fields but differs in algorithm, the decision is exactly one
in-place update. -/
theorem ensurePortActions_decision_witness :
    ensurePortActions { algorithm := "roundrobin", ipAddr := "1.1.1.1", rules := [c1Rule] }
      ["vm-1"] "svc-tcp-80" { Port := 80, NodePort := 30000 } .tcp
      = [.updateRule "svc-tcp-80" "roundrobin" "tcp"] :=
  (ensurePortActions_decision
      { algorithm := "roundrobin", ipAddr := "1.1.1.1", rules := [c1Rule] }
      ["vm-1"] "svc-tcp-80" { Port := 80, NodePort := 30000 } .tcp c1Rule
      (by decide)).2.1 (by decide)

/-- C2 (evaluation of the code at the failing input): the observed rule
matches the desired public IP, ports, algorithm and protocol, while its
CIDR list 10.0.0.0/8 differs from the desired list
[10.0.0.0/8, 192.168.0.0/16]; the decision of the source issues no action
at all, neither an in-place update nor a delete-and-recreate, for every
CloudStack version, because checkLoadBalancerRule never consults the CIDR
list or the stored management-server version. -/
theorem ensurePortActions_ignores_cidr :
    ensurePortActions { algorithm := "roundrobin", ipAddr := "1.1.1.1", rules := [c2Rule] }
      ["vm-1"] "rule" { Port := 80, NodePort := 30000 } .tcp = []
    ∧ compareStringSlice (splitOnChar ',' c2Rule.Cidrlist)
        ["10.0.0.0/8", "192.168.0.0/16"] = false := by
  constructor
  · rfl
  · decide

theorem updateFirewallRule_fst (fwRules : List FirewallRule) (publicPort : Int)
    (protocol : LoadBalancerProtocol) (allowedIPs : List String)
    (deleteFails : String → Bool) (createFails : Bool) :
    (updateFirewallRule fwRules publicPort protocol allowedIPs deleteFails createFails).1
      = fwEvents fwRules publicPort protocol (normalizeAllowed allowedIPs) := by
  rw [updateFirewallRule]
  rcases hm : fwMatch fwRules publicPort protocol (normalizeAllowed allowedIPs) with _ | m
  · cases createFails <;> simp
  · simp

/-- C3: in firewall mode, for every public IP, port, protocol and desired
CIDR list (an empty desired list being replaced by the single entry
0.0.0.0/0), the reconciler deletes every listed firewall rule with the same
IP protocol and startPort = endPort = publicPort whose CIDR list is not
multiset-equal to the desired list before it creates anything (any create
is the last issued call), and it creates a new rule with the desired CIDR
list if and only if no multiset-equal rule was found. -/
theorem updateFirewallRule_reconcile_spec (fwRules : List FirewallRule) (publicPort : Int)
    (protocol : LoadBalancerProtocol) (allowedIPs : List String)
    (deleteFails : String → Bool) (createFails : Bool) :
    (∀ r ∈ fwRules, fwRuleMatchesPort protocol publicPort r = true →
      Multiset.ofList (splitOnChar ',' r.Cidrlist)
          ≠ Multiset.ofList (normalizeAllowed allowedIPs) →
      FwEvent.deleteRule r.Id
        ∈ (updateFirewallRule fwRules publicPort protocol allowedIPs deleteFails createFails).1)
    ∧ (FwEvent.createRule (normalizeAllowed allowedIPs) publicPort publicPort protocol.IPProtocol
        ∈ (updateFirewallRule fwRules publicPort protocol allowedIPs deleteFails createFails).1
      ↔ ¬ ∃ r ∈ fwRules, fwRuleMatchesPort protocol publicPort r = true ∧
          Multiset.ofList (splitOnChar ',' r.Cidrlist)
            = Multiset.ofList (normalizeAllowed allowedIPs))
    ∧ (∀ c s e p, FwEvent.createRule c s e p
        ∈ (updateFirewallRule fwRules publicPort protocol allowedIPs deleteFails createFails).1 →
      (updateFirewallRule fwRules publicPort protocol allowedIPs deleteFails createFails).1.getLast?
        = some (FwEvent.createRule c s e p)) := by
  rw [updateFirewallRule_fst]
  set allowed := normalizeAllowed allowedIPs with hallowed
  refine ⟨?_, ?_, ?_⟩
  · intro r hr hmatch hne
    have hpred : compareStringSlice (splitOnChar ',' r.Cidrlist) allowed = false := by
      cases hc : compareStringSlice (splitOnChar ',' r.Cidrlist) allowed
      · rfl
      · exact absurd ((compareStringSlice_eq_true_iff _ _).mp hc) hne
    have hfil : r ∈ fwFiltered fwRules publicPort protocol :=
      List.mem_filter.mpr ⟨hr, hmatch⟩
    have hdel : r ∈ fwToDelete fwRules publicPort protocol allowed := by
      rw [fwToDelete]
      rcases hm : fwMatch fwRules publicPort protocol allowed with _ | m
      · exact hfil
      · have hpredm := List.find?_some hm
        have hrne : r ≠ m := by
          intro he
          rw [he, hpredm] at hpred
          exact Bool.noConfusion hpred
        exact (List.mem_erase_of_ne hrne).mpr hfil
    rw [fwEvents]
    rcases hm : fwMatch fwRules publicPort protocol allowed with _ | m
    · exact List.mem_append_left _ (List.mem_map_of_mem _ hdel)
    · exact List.mem_map_of_mem _ hdel
  · rw [fwEvents]
    rcases hm : fwMatch fwRules publicPort protocol allowed with _ | m
    · constructor
      · intro _
        rintro ⟨r, hr, hmatch, heq⟩
        have hfil : r ∈ fwFiltered fwRules publicPort protocol :=
          List.mem_filter.mpr ⟨hr, hmatch⟩
        have := List.find?_eq_none.mp hm r hfil
        exact this ((compareStringSlice_eq_true_iff _ _).mpr heq)
      · intro _
        exact List.mem_append_right _ (List.mem_singleton.mpr rfl)
    · have hpredm := List.find?_some hm
      have hmem := List.mem_of_find?_eq_some hm
      constructor
      · intro hmem2
        exfalso
        rcases List.mem_map.mp hmem2 with ⟨r, _, habs⟩
        exact FwEvent.noConfusion habs
      · intro habs
        exfalso
        apply habs
        refine ⟨m, List.mem_of_mem_filter hmem, ?_, ?_⟩
        · exact List.of_mem_filter hmem
        · exact (compareStringSlice_eq_true_iff _ _).mp hpredm
  · intro c s e p
    rw [fwEvents]
    rcases hm : fwMatch fwRules publicPort protocol allowed with _ | m
    · intro hmem
      rcases List.mem_append.mp hmem with hdel | hcr
      · exfalso
        rcases List.mem_map.mp hdel with ⟨r, _, habs⟩
        exact FwEvent.noConfusion habs
      · rw [List.mem_singleton.mp hcr]
        exact List.getLast?_concat _
    · intro hmem
      exfalso
      rcases List.mem_map.mp hmem with ⟨r, _, habs⟩
      exact FwEvent.noConfusion habs

/-- C3 witness: with one listed rule opening 0.0.0.0/0 on tcp port 80 and
desired list 10.0.0.0/8, the old rule is deleted and a create with the
desired list is issued. -/
theorem updateFirewallRule_reconcile_spec_witness :
    FwEvent.deleteRule "fw-old"
      ∈ (updateFirewallRule [c3OldRule] 80 .tcp ["10.0.0.0/8"] (fun _ => false) false).1
    ∧ FwEvent.createRule ["10.0.0.0/8"] 80 80 "tcp"
      ∈ (updateFirewallRule [c3OldRule] 80 .tcp ["10.0.0.0/8"] (fun _ => false) false).1 :=
  ⟨(updateFirewallRule_reconcile_spec [c3OldRule] 80 .tcp ["10.0.0.0/8"]
      (fun _ => false) false).1 c3OldRule (List.mem_singleton.mpr rfl) (by decide) (by decide),
   (updateFirewallRule_reconcile_spec [c3OldRule] 80 .tcp ["10.0.0.0/8"]
      (fun _ => false) false).2.1.mpr (by decide)⟩

/-- C8 counterexample: a multiset-equal rule exists (so no create is
issued) and the delete of the last conflicting rule fails; both conflicting
deletes are still issued, but updateFirewallRule returns a non-nil error,
which EnsureLoadBalancer propagates as a failure of the reconciliation,
contrary to the claim that an individual delete failure never fails the
overall Ensure. -/
theorem updateFirewallRule_delete_error_propagates :
    (updateFirewallRule [c8MatchRule, c8OkRule, c8BadRule] 80 .tcp ["10.0.0.0/8"]
        (fun i => i == "fw-3") false).1
      = [FwEvent.deleteRule "fw-2", FwEvent.deleteRule "fw-3"]
    ∧ (updateFirewallRule [c8MatchRule, c8OkRule, c8BadRule] 80 .tcp ["10.0.0.0/8"]
        (fun i => i == "fw-3") false).2.2 ≠ none := by
  constructor
  · decide
  · decide

/-- C8 (amended): an individual delete failure never changes which firewall
calls are issued (all remaining conflicting rules are still deleted), and
when no multiset-equal rule pre-existed, so that a new rule is created, a
successful create drops the delete errors and updateFirewallRule returns
success with a nil error, letting EnsureLoadBalancer continue; only when a
multiset-equal rule pre-existed and no create is issued can a delete
failure surface as a returned error. -/
theorem updateFirewallRule_best_effort (fwRules : List FirewallRule) (publicPort : Int)
    (protocol : LoadBalancerProtocol) (allowedIPs : List String)
    (deleteFails : String → Bool) (createFails : Bool) :
    ((updateFirewallRule fwRules publicPort protocol allowedIPs deleteFails createFails).1
      = (updateFirewallRule fwRules publicPort protocol allowedIPs (fun _ => false)
          createFails).1)
    ∧ ((∀ r ∈ fwRules, fwRuleMatchesPort protocol publicPort r = true →
          compareStringSlice (splitOnChar ',' r.Cidrlist) (normalizeAllowed allowedIPs)
            = false) →
        createFails = false →
        (updateFirewallRule fwRules publicPort protocol allowedIPs deleteFails
            createFails).2.2 = none
        ∧ (updateFirewallRule fwRules publicPort protocol allowedIPs deleteFails
            createFails).2.1 = true) := by
  constructor
  · rw [updateFirewallRule_fst, updateFirewallRule_fst]
  · intro hall hcf
    have hm : fwMatch fwRules publicPort protocol (normalizeAllowed allowedIPs) = none := by
      rw [fwMatch]
      apply List.find?_eq_none.mpr
      intro r hr
      have h1 : r ∈ fwRules := List.mem_of_mem_filter hr
      have h2 := List.of_mem_filter hr
      simp [hall r h1 h2]
    rw [updateFirewallRule, hm, hcf]
    exact ⟨rfl, rfl⟩

/-- C8 (amended) witness: at the C3 witness input, where no multiset-equal
rule exists, a failing delete of the old rule still returns a nil error and
success. -/
theorem updateFirewallRule_best_effort_witness :
    (updateFirewallRule [c3OldRule] 80 .tcp ["10.0.0.0/8"]
        (fun _ => true) false).2.2 = none
    ∧ (updateFirewallRule [c3OldRule] 80 .tcp ["10.0.0.0/8"]
        (fun _ => true) false).2.1 = true :=
  (updateFirewallRule_best_effort [c3OldRule] 80 .tcp ["10.0.0.0/8"]
    (fun _ => true) false).2 (by decide) rfl

/-- C4 (evaluation of the code at the failing input): the ACL list of the
network already contains an entry matching the IP protocol and
startPort = endPort = 80, yet updateNetworkACL still issues exactly one
CreateNetworkACL call instead of the no-op the claim describes. -/
theorem updateNetworkACL_always_creates :
    (c4Network.acls.any (aclMatchesPort .tcp 80)) = true
    ∧ (updateNetworkACL c4Network 80 .tcp).1
      = [AclEvent.createEntry "tcp" "acl-456" "Allow" ["0.0.0.0/0"] 80 80 "net-123" "Ingress"] := by
  constructor
  · decide
  · rfl

theorem ensureCleanupCalls_deleteACL (networkID : String) :
    ∀ (leftover : List LoadBalancerRule) (calls : List CleanupCall),
      ensureCleanupCalls networkID leftover = Except.ok calls →
      ∀ r ∈ leftover, ∀ port, parseInt32 r.Publicport = some port →
        CleanupCall.deleteACL port (ProtocolFromLoadBalancer r.Protocol) networkID ∈ calls := by
  intro leftover
  induction leftover with
  | nil => intro calls _ r hr; exact absurd hr (List.not_mem_nil r)
  | cons q rest ih =>
    intro calls hok r hr port hport
    rw [ensureCleanupCalls] at hok
    by_cases hp : ProtocolFromLoadBalancer q.Protocol = LoadBalancerProtocol.invalid
    · rw [if_pos hp] at hok
      exact Except.noConfusion hok
    · rw [if_neg hp] at hok
      rcases hq : parseInt32 q.Publicport with _ | qport
      · rw [hq] at hok
        exact Except.noConfusion hok
      · rw [hq] at hok
        rcases hrest : ensureCleanupCalls networkID rest with e | restCalls
        · rw [hrest] at hok
          exact Except.noConfusion hok
        · rw [hrest] at hok
          have hcalls : calls = [CleanupCall.deleteFirewall q.Publicipid qport
                (ProtocolFromLoadBalancer q.Protocol),
              CleanupCall.deleteACL qport (ProtocolFromLoadBalancer q.Protocol) networkID,
              CleanupCall.deleteLB q.Id] ++ restCalls := by
            cases hok
            rfl
          rcases List.mem_cons.mp hr with rfl | hrtl
          · rw [hq] at hport
            cases hport
            rw [hcalls]
            exact List.mem_append_left _ (by simp)
          · rw [hcalls]
            exact List.mem_append_right _ (ih restCalls hrest r hrtl port hport)

/-- C5: whenever the listed network ACL entries contain no entry whose IP
protocol, startPort and endPort (ports compared as strings) match the given
port and protocol, deleteNetworkACLRule performs the head access
filtered[0] on an empty list and so does not terminate normally with a
result or an error (modelled as none); and this situation is reachable
because the cleanup loop of EnsureLoadBalancer issues the ACL deletion for
every obsolete rule whose protocol and port parse, regardless of the
network perimeter kind. -/
theorem deleteNetworkACLRule_empty_head (acls : List NetworkACLEntry) (publicPort : Int)
    (protocol : LoadBalancerProtocol)
    (hnone : ∀ r ∈ acls, aclMatchesPort protocol publicPort r = false) :
    deleteNetworkACLRule acls publicPort protocol = none
    ∧ ∀ (networkID : String) (leftover : List LoadBalancerRule) (calls : List CleanupCall),
        ensureCleanupCalls networkID leftover = Except.ok calls →
        ∀ r ∈ leftover, ∀ port, parseInt32 r.Publicport = some port →
          CleanupCall.deleteACL port (ProtocolFromLoadBalancer r.Protocol) networkID ∈ calls := by
  constructor
  · rw [deleteNetworkACLRule]
    have hfil : acls.filter (aclMatchesPort protocol publicPort) = [] := by
      rw [List.filter_eq_nil_iff]
      intro r hr
      simp [hnone r hr]
    rw [hfil]
  · exact fun networkID => ensureCleanupCalls_deleteACL networkID

/-- C5 witness: with an ACL listing holding only a udp entry, the delete of
the tcp port 80 ACL rule hits the empty head access, and the cleanup of the
obsolete rule issues exactly that ACL delete. -/
theorem deleteNetworkACLRule_empty_head_witness :
    deleteNetworkACLRule [c5AclEntry] 80 .tcp = none
    ∧ CleanupCall.deleteACL 80 .tcp "net-1"
        ∈ [CleanupCall.deleteFirewall "ip-1" 80 .tcp, CleanupCall.deleteACL 80 .tcp "net-1",
           CleanupCall.deleteLB "rule-id"] :=
  ⟨(deleteNetworkACLRule_empty_head [c5AclEntry] 80 .tcp (by decide)).1,
   (deleteNetworkACLRule_empty_head [c5AclEntry] 80 .tcp
      (by decide)).2 "net-1" [c5Rule]
      [CleanupCall.deleteFirewall "ip-1" 80 .tcp, CleanupCall.deleteACL 80 .tcp "net-1",
       CleanupCall.deleteLB "rule-id"] rfl c5Rule (by decide) 80 rfl⟩

theorem ensureDeletedRuleActions_no_release (vpcid networkID : String)
    (r : LoadBalancerRule) (id : String) :
    DeleteAction.releaseIP id ∉ ensureDeletedRuleActions vpcid networkID r := by
  intro hmem
  rw [ensureDeletedRuleActions] at hmem
  by_cases hp : ProtocolFromLoadBalancer r.Protocol = LoadBalancerProtocol.invalid
  · rw [if_pos hp] at hmem
    exact List.not_mem_nil _ hmem
  · rw [if_neg hp] at hmem
    rcases List.mem_append.mp hmem with hleft | hright
    · rcases hq : parseInt32 r.Publicport with _ | port
      · rw [hq] at hleft
        exact List.not_mem_nil _ hleft
      · rw [hq] at hleft
        dsimp only at hleft
        by_cases hv : vpcid = ""
        · rw [if_pos hv] at hleft
          rcases List.mem_singleton.mp hleft with h
          exact DeleteAction.noConfusion h
        · rw [if_neg hv] at hleft
          rcases List.mem_singleton.mp hleft with h
          exact DeleteAction.noConfusion h
    · rcases List.mem_singleton.mp hright with h
      exact DeleteAction.noConfusion h

/-- C9: the deletion flow disassociates the public IP if and only if the
address attached to the rules of the service is non-empty and differs from
the LoadBalancerIP explicitly requested on the Service; consequently a
pre-existing IP named on the Service (equal to the requested address) is
never released, while an address the controller allocated for a Service
that requested none (requested address empty, attached address non-empty)
is released on deletion.  No other address is ever disassociated. -/
theorem ensureLoadBalancerDeleted_release_iff (vpcid networkID ipAddr ipAddrID requestedIP :
    String) (rules : List LoadBalancerRule) :
    (DeleteAction.releaseIP ipAddrID
        ∈ ensureLoadBalancerDeletedActions vpcid networkID ipAddr ipAddrID requestedIP rules
      ↔ (ipAddr ≠ "" ∧ ipAddr ≠ requestedIP))
    ∧ ∀ id, DeleteAction.releaseIP id
        ∈ ensureLoadBalancerDeletedActions vpcid networkID ipAddr ipAddrID requestedIP rules →
        id = ipAddrID := by
  have hjoin : ∀ id, DeleteAction.releaseIP id
      ∉ ((rules.map (ensureDeletedRuleActions vpcid networkID)).flatten : List DeleteAction) := by
    intro id hmem
    rcases List.mem_flatten.mp hmem with ⟨l, hl, hid⟩
    rcases List.mem_map.mp hl with ⟨r, _, rfl⟩
    exact ensureDeletedRuleActions_no_release vpcid networkID r id hid
  constructor
  · constructor
    · intro hmem
      rcases List.mem_append.mp hmem with hleft | hright
      · exact absurd hleft (hjoin ipAddrID)
      · by_cases hc : ipAddr ≠ "" ∧ ipAddr ≠ requestedIP
        · exact hc
        · rw [if_neg hc] at hright
          exact absurd hright (List.not_mem_nil _)
    · intro hc
      apply List.mem_append_right
      rw [if_pos hc]
      exact List.mem_singleton.mpr rfl
  · intro id hmem
    rcases List.mem_append.mp hmem with hleft | hright
    · exact absurd hleft (hjoin id)
    · by_cases hc : ipAddr ≠ "" ∧ ipAddr ≠ requestedIP
      · rw [if_pos hc] at hright
        rcases List.mem_singleton.mp hright with h
        exact (DeleteAction.releaseIP.injEq _ _).mp h
      · rw [if_neg hc] at hright
        exact absurd hright (List.not_mem_nil _)

/-- C9 witness: a controller-allocated address (requested address empty) is
released on deletion, at a concrete state with one rule. -/
theorem ensureLoadBalancerDeleted_release_iff_witness :
    DeleteAction.releaseIP "ip-1"
      ∈ ensureLoadBalancerDeletedActions "" "net-1" "1.1.1.1" "ip-1" "" [c5Rule] :=
  (ensureLoadBalancerDeleted_release_iff "" "net-1" "1.1.1.1" "ip-1" "" [c5Rule]).1.mpr
    (by decide)

theorem verifyHostsLoop_filter (nodes : List String) :
    ∀ (vms : List VirtualMachine) (hostIDs : List String) (networkID : String),
      verifyHostsLoop nodes vms hostIDs networkID
        = verifyHostsLoop nodes (matchedVMs nodes vms) hostIDs networkID := by
  intro vms
  induction vms with
  | nil => intro hostIDs networkID; rfl
  | cons vm rest ih =>
    intro hostIDs networkID
    rw [matchedVMs, List.filter_cons]
    cases hvm : vmMatches nodes vm
    · rw [if_neg (by simp)]
      rw [verifyHostsLoop, if_neg (by simp [hvm])]
      exact ih hostIDs networkID
    · rw [if_pos rfl]
      rw [verifyHostsLoop, if_pos hvm, verifyHostsLoop, if_pos hvm]
      by_cases hc : networkID ≠ "" ∧ networkID ≠ vm.NicNetworkid
      · rw [if_pos hc, if_pos hc]
      · rw [if_neg hc, if_neg hc]
        exact ih (hostIDs ++ [vm.Id]) vm.NicNetworkid

theorem verifyHostsLoop_matched (nodes : List String) :
    ∀ (ms : List VirtualMachine), (∀ vm ∈ ms, vmMatches nodes vm = true) →
      ∀ (hostIDs : List String) (networkID : String),
        verifyHostsLoop nodes ms hostIDs networkID
          = if nicChainOk networkID ms then
              (if (hostIDs ++ ms.map VirtualMachine.Id).isEmpty ∨ lastNic networkID ms = ""
               then Except.error errNoMatch
               else Except.ok (hostIDs ++ ms.map VirtualMachine.Id, lastNic networkID ms))
            else Except.error errDifferentNetworks := by
  intro ms
  induction ms with
  | nil =>
    intro _ hostIDs networkID
    rw [verifyHostsLoop, nicChainOk, if_pos rfl]
    simp [lastNic]
  | cons vm rest ih =>
    intro hall hostIDs networkID
    have hvm : vmMatches nodes vm = true := hall vm (List.mem_cons_self vm rest)
    have hrest : ∀ q ∈ rest, vmMatches nodes q = true :=
      fun q hq => hall q (List.mem_cons_of_mem vm hq)
    rw [verifyHostsLoop, if_pos hvm, nicChainOk]
    by_cases hc : networkID ≠ "" ∧ networkID ≠ vm.NicNetworkid
    · rw [if_pos hc, if_pos hc]
      simp
    · rw [if_neg hc, if_neg hc]
      rw [ih hrest (hostIDs ++ [vm.Id]) vm.NicNetworkid]
      have hids : hostIDs ++ [vm.Id] ++ rest.map VirtualMachine.Id
          = hostIDs ++ (vm :: rest).map VirtualMachine.Id := by
        rw [List.append_assoc, List.singleton_append, List.map_cons]
      have hnic : lastNic vm.NicNetworkid rest = lastNic networkID (vm :: rest) := by
        rw [lastNic, lastNic, List.map_cons, List.getLastD_cons]
      rw [hids, hnic]

theorem nicChainOk_all_eq :
    ∀ (ms : List VirtualMachine) (nid : String), nid ≠ "" →
      (nicChainOk nid ms = true ↔ ∀ vm ∈ ms, vm.NicNetworkid = nid) := by
  intro ms
  induction ms with
  | nil => intro nid _; simp [nicChainOk]
  | cons vm rest ih =>
    intro nid hnid
    rw [nicChainOk]
    by_cases hv : vm.NicNetworkid = nid
    · rw [if_neg (by simp [hv.symm])]
      rw [hv, ih nid hnid]
      constructor
      · intro h q hq
        rcases List.mem_cons.mp hq with rfl | hqtl
        · exact hv
        · exact h q hqtl
      · intro h q hq
        exact h q (List.mem_cons_of_mem vm hq)
    · rw [if_pos ⟨hnid, fun he => hv he.symm⟩]
      constructor
      · intro h
        exact Bool.noConfusion h
      · intro h
        exact absurd (h vm (List.mem_cons_self vm rest)) hv

theorem getLastD_all_eq (c : String) :
    ∀ (l : List String), (∀ x ∈ l, x = c) → l ≠ [] → ∀ d, l.getLastD d = c := by
  intro l
  induction l with
  | nil => intro _ h; exact absurd rfl h
  | cons x t ih =>
    intro hall _ d
    rcases ht : t with _ | ⟨y, t2⟩
    · rw [List.getLastD_cons]
      exact hall x (List.mem_cons_self x t)
    · rw [List.getLastD_cons]
      rw [← ht]
      apply ih (fun q hq => hall q (List.mem_cons_of_mem x hq))
      rw [ht]
      exact List.cons_ne_nil y t2

/-- C10 (amended): provided every matched VM carries a non-empty first-NIC
network ID, node resolution fails exactly when the matched VMs span more
than one distinct network ID or when no VM matched any node name (a node
name matching a VM name case-insensitively after stripping the domain part
of an FQDN node name); otherwise it returns the matched VM IDs in listing
order together with the shared network ID. -/
theorem verifyHosts_spec (nodes : List String) (vms : List VirtualMachine)
    (hne : ∀ vm ∈ matchedVMs nodes vms, vm.NicNetworkid ≠ "") :
    (isErr (verifyHosts nodes vms) = true ↔
      (matchedVMs nodes vms = []
        ∨ ∃ a ∈ matchedVMs nodes vms, ∃ b ∈ matchedVMs nodes vms,
            a.NicNetworkid ≠ b.NicNetworkid))
    ∧ (∀ ids nid, verifyHosts nodes vms = Except.ok (ids, nid) →
        ids = (matchedVMs nodes vms).map VirtualMachine.Id
        ∧ ∀ vm ∈ matchedVMs nodes vms, vm.NicNetworkid = nid) := by
  have hmall : ∀ vm ∈ matchedVMs nodes vms, vmMatches nodes vm = true :=
    fun vm hvm => List.of_mem_filter hvm
  have hkey : verifyHosts nodes vms
      = if nicChainOk "" (matchedVMs nodes vms) then
          (if (([] : List String) ++ (matchedVMs nodes vms).map VirtualMachine.Id).isEmpty
              ∨ lastNic "" (matchedVMs nodes vms) = ""
           then Except.error errNoMatch
           else Except.ok (([] : List String) ++ (matchedVMs nodes vms).map VirtualMachine.Id,
                           lastNic "" (matchedVMs nodes vms)))
        else Except.error errDifferentNetworks := by
    rw [verifyHosts, verifyHostsLoop_filter, verifyHostsLoop_matched nodes _ hmall]
  rcases hm : matchedVMs nodes vms with _ | ⟨m0, ms⟩
  · rw [hm] at hkey
    simp only [nicChainOk, if_pos rfl, List.map_nil, List.append_nil, List.isEmpty_nil,
      true_or, if_true] at hkey
    constructor
    · rw [hkey]
      simp [isErr]
    · intro ids nid hok
      rw [hkey] at hok
      exact Except.noConfusion hok
  · rw [hm] at hkey hne
    have hm0 : m0.NicNetworkid ≠ "" := hne m0 (List.mem_cons_self m0 ms)
    have hchain : nicChainOk "" (m0 :: ms) = nicChainOk m0.NicNetworkid ms := by
      rw [nicChainOk, if_neg (by simp)]
    cases hcn : nicChainOk m0.NicNetworkid ms
    · rw [hchain, hcn] at hkey
      simp only [Bool.false_eq_true, if_false] at hkey
      constructor
      · rw [hkey]
        simp only [isErr, true_iff]
        right
        have hnall : ¬ ∀ vm ∈ ms, vm.NicNetworkid = m0.NicNetworkid := by
          intro hall
          rw [(nicChainOk_all_eq ms m0.NicNetworkid hm0).mpr hall] at hcn
          exact Bool.noConfusion hcn
        push_neg at hnall
        rcases hnall with ⟨b, hb, hbne⟩
        exact ⟨m0, List.mem_cons_self m0 ms, b, List.mem_cons_of_mem m0 hb,
          fun h => hbne h.symm⟩
      · intro ids nid hok
        rw [hkey] at hok
        exact Except.noConfusion hok
    · have hall : ∀ vm ∈ ms, vm.NicNetworkid = m0.NicNetworkid :=
        (nicChainOk_all_eq ms m0.NicNetworkid hm0).mp hcn
      have hlast : lastNic "" (m0 :: ms) = m0.NicNetworkid := by
        rw [lastNic]
        apply getLastD_all_eq
        · intro x hx
          rcases List.mem_map.mp hx with ⟨vm, hvm, rfl⟩
          rcases List.mem_cons.mp hvm with rfl | htl
          · rfl
          · exact hall vm htl
        · simp
      rw [hchain, hcn, hlast] at hkey
      simp [hm0] at hkey
      constructor
      · rw [hkey]
        simp only [isErr, Bool.false_eq_true, false_iff]
        rintro (hnil | ⟨a, ha, b, hb, hab⟩)
        · exact List.noConfusion hnil
        · have hnic : ∀ vm ∈ m0 :: ms, vm.NicNetworkid = m0.NicNetworkid := by
            intro vm hvm
            rcases List.mem_cons.mp hvm with rfl | htl
            · rfl
            · exact hall vm htl
          exact hab ((hnic a ha).trans (hnic b hb).symm)
      · intro ids nid hok
        rw [hkey] at hok
        have h := Except.ok.inj hok
        have hids := congrArg Prod.fst h
        have hnid := congrArg Prod.snd h
        dsimp at hids hnid
        constructor
        · rw [← hids, List.map_cons]
        · intro vm hvm
          rcases List.mem_cons.mp hvm with rfl | htl
          · exact hnid
          · exact (hall vm htl).trans hnid

/-- C10 counterexample: with one node node1 and one matching VM whose
first-NIC network ID is the empty string, the matched VMs are non-empty
and span a single network ID, yet verifyHosts fails (its final check also
rejects an empty network ID), so resolution does not fail exactly on the
two conditions of the claim. -/
theorem verifyHosts_counterexample :
    ¬ (isErr (verifyHosts ["node1"] [c10Vm]) = true ↔
        (matchedVMs ["node1"] [c10Vm] = []
          ∨ ∃ a ∈ matchedVMs ["node1"] [c10Vm], ∃ b ∈ matchedVMs ["node1"] [c10Vm],
              a.NicNetworkid ≠ b.NicNetworkid)) := by
  decide

/-- C10 witness: two nodes, one given as an FQDN with mixed case, resolve
against two VMs on the same network; resolution succeeds with both VM IDs
and that network. -/
theorem verifyHosts_spec_witness :
    ["vm-1", "vm-2"]
        = (matchedVMs ["Node1.example.com", "node2"]
            [{ Id := "vm-1", Name := "NODE1", NicNetworkid := "net-1" },
             { Id := "vm-2", Name := "node2", NicNetworkid := "net-1" }]).map
          VirtualMachine.Id
    ∧ ∀ vm ∈ matchedVMs ["Node1.example.com", "node2"]
        [{ Id := "vm-1", Name := "NODE1", NicNetworkid := "net-1" },
         { Id := "vm-2", Name := "node2", NicNetworkid := "net-1" }],
        vm.NicNetworkid = "net-1" :=
  (verifyHosts_spec ["Node1.example.com", "node2"]
      [{ Id := "vm-1", Name := "NODE1", NicNetworkid := "net-1" },
       { Id := "vm-2", Name := "node2", NicNetworkid := "net-1" }]
      (by decide)).2 ["vm-1", "vm-2"] "net-1" rfl
